import Mathlib

/-!
# Verification of the openPMD-viewer data normalization and selection layer

This file gives a shallow embedding, in Lean 4, of the core data transforms of
the openPMD-viewer repository:

* `apply_selection` (from `opmd_viewer/openpmd_timeseries/utilities.py`):
  range-based particle selection over co-indexed 1-D quantity arrays;
* `simplify_record` (from `.../data_reader/yt_reader/params_reader.py`):
  canonical renaming of particle record components;
* `get_data` (from `.../data_reader/h5py_reader/utilities.py`):
  extraction of (possibly constant, possibly sliced) dataset data with
  SI-unit scaling;
* the slicing core of `read_field_cartesian`
  (from `.../data_reader/yt_reader/field_reader.py`).

Modeling conventions: numpy 1-D arrays of numbers become `List ℚ` (floating
point values are idealized as exact rationals; none of the proved statements
depends on rounding), N-dimensional numpy arrays become a pair of a shape and a
flat row-major data list (`Ndarray`), Python `int()` truncation becomes
`pyInt`, and operations that can raise a Python exception return `Option` or
`Except` values, with `none` / `.error` at exactly the inputs where the Python
code raises.
-/

/-- Python `int()` applied to a rational: truncation toward zero, computed
as the truncating division of the numerator by the denominator. -/
def pyInt (q : ℚ) : ℤ :=
  Int.tdiv q.num q.den

/-- On nonnegative rationals, truncation toward zero is the floor. -/
theorem pyInt_nonneg_eq_floor (q : ℚ) (h : 0 ≤ q) : pyInt q = ⌊q⌋ := by
  rw [pyInt, Int.tdiv_eq_ediv (Rat.num_nonneg.mpr h) (by positivity),
    Rat.floor_def]

/-- A numpy N-dimensional array: a shape together with the flat row-major
data. An array is well-formed when `data.length = shape.prod`; the
operations below preserve this but do not require it. -/
structure Ndarray where
  shape : List ℕ
  data : List ℚ
deriving DecidableEq

/-- Elementwise strict `numpy logical_and` of two 1-D boolean arrays, with
numpy broadcasting: the lengths must agree, or one operand must have length
one (in which case it is broadcast against the other).  Any other length
combination raises in numpy, hence returns `none` here. -/
def npLogicalAnd (a b : List Bool) : Option (List Bool) :=
  if a.length = b.length then some (a.zipWith (fun x y => x && y) b)
  else if a.length = 1 then some (b.map (fun y => a.headD true && y))
  else if b.length = 1 then some (a.map (fun x => x && b.headD true))
  else none

/-- numpy boolean-mask indexing `l[mask]`: keeps, in order, the elements of
`l` at the positions where `mask` is `true`.  numpy raises when the mask
length differs from the array length, hence `none` there. -/
def boolIndex (l : List ℚ) (mask : List Bool) : Option (List ℚ) :=
  if l.length = mask.length then
    some (((l.zip mask).filter (fun p => p.2)).map Prod.fst)
  else none

/-- The order-preserving subsequence of `l` selected by `mask`
(the value produced by a successful `boolIndex`). -/
def maskFilter (l : List ℚ) (mask : List Bool) : List ℚ :=
  ((l.zip mask).filter (fun p => p.2)).map Prod.fst

/-- The first loop of `apply_selection` (utilities.py lines 46-61): starting
from an all-`true` mask of length `Ntot`, fetch `q` for each selection rule
and AND the mask with `q > lo` (when the lower bound is present) and with
`q < hi` (when the upper bound is present), both strict.
A rule is `(quantity_name, (lower_bound, upper_bound))`. -/
def computeMask (read : String → List ℚ)
    (select : List (String × Option ℚ × Option ℚ)) (Ntot : ℕ) :
    Option (List Bool) :=
  select.foldlM
    (fun mask rule =>
      let q := read rule.1
      let afterLo : Option (List Bool) :=
        match rule.2.1 with
        | Option.none => some mask
        | some lo => npLogicalAnd mask (q.map (fun v => decide (lo < v)))
      match afterLo with
      | Option.none => Option.none
      | some mask1 =>
        match rule.2.2 with
        | Option.none => some mask1
        | some hi => npLogicalAnd mask1 (q.map (fun v => decide (v < hi))))
    (List.replicate Ntot true)

/-- Elementwise application of a fallible function to a list, failing as
soon as one element fails (the Python in-place update loop of
`apply_selection`, which raises out of the loop on the first error). -/
def mapOption {α β : Type} (f : α → Option β) : List α → Option (List β)
  | [] => some []
  | a :: t =>
    match f a with
    | Option.none => Option.none
    | some b =>
      match mapOption f t with
      | Option.none => Option.none
      | some bs => some (b :: bs)

/-- `apply_selection` (utilities.py lines 13-68).  `read` stands for
`data_reader.read_species_data(species, quantity, extensions)` with the
species and extensions fixed.  The mask has length `len(data_list[0])`
(raises - hence `none` - when `data_list` is empty); every array of
`data_list` of length greater than one is compacted by the mask, the other
arrays are kept untouched. -/
def apply_selection (read : String → List ℚ) (data_list : List (List ℚ))
    (select : List (String × Option ℚ × Option ℚ)) :
    Option (List (List ℚ)) :=
  match data_list with
  | [] => Option.none
  | d0 :: _ =>
    match computeMask read select d0.length with
    | Option.none => Option.none
    | some mask =>
      mapOption (fun l => if 1 < l.length then boolIndex l mask else some l)
        data_list

/-- Claim C1, counterexample: with strict comparisons on both bounds of the
rule `(1, 3)` over `q = [0,1,2,3,4]`, the selector does NOT produce the
keep-mask `[F,F,T,T,F]`, and the filtered result is not `[[3,4]]`
(position 3 has `q = 3`, and `3 < 3` fails). -/
theorem C1_selector_example_cex :
    computeMask (fun _ => [0, 1, 2, 3, 4]) [("q", some 1, some 3)] 5 ≠
      some [false, false, true, true, false] ∧
    apply_selection (fun _ => [0, 1, 2, 3, 4]) [[1, 2, 3, 4, 5]]
      [("q", some 1, some 3)] ≠ some [[3, 4]] := by
  constructor
  · decide
  · decide

/-- Claim C1, amended: applying the selector to `data_list = [[1,2,3,4,5]]`
with quantity `q = [0,1,2,3,4]` and the single rule `(1, 3)`, strict on both
bounds, produces the keep-mask `[F,F,T,F,F]` (only the position with
`q = 2` satisfies `1 < q < 3`) and the filtered result `[[3]]`. -/
theorem C1_selector_example :
    computeMask (fun _ => [0, 1, 2, 3, 4]) [("q", some 1, some 3)] 5 =
      some [false, false, true, false, false] ∧
    apply_selection (fun _ => [0, 1, 2, 3, 4]) [[1, 2, 3, 4, 5]]
      [("q", some 1, some 3)] = some [[3]] := by
  constructor
  · decide
  · decide

/-- `simplify_record` (params_reader.py lines 155-195): replace the names of
standard openPMD particle records by shorter canonical names.  Each
recognized key is removed from its position (Python `list.remove`, i.e. the
first occurrence) and its canonical short name is appended at the end, in
the fixed processing order `position_x/y/z, momentum_x/y/z, weighting`. -/
def simplify_record (record_comps : List String) : List String :=
  let rc := record_comps
  let rc := if "position_x" ∈ rc then rc.erase "position_x" ++ ["x"] else rc
  let rc := if "position_y" ∈ rc then rc.erase "position_y" ++ ["y"] else rc
  let rc := if "position_z" ∈ rc then rc.erase "position_z" ++ ["z"] else rc
  let rc := if "momentum_x" ∈ rc then rc.erase "momentum_x" ++ ["ux"] else rc
  let rc := if "momentum_y" ∈ rc then rc.erase "momentum_y" ++ ["uy"] else rc
  let rc := if "momentum_z" ∈ rc then rc.erase "momentum_z" ++ ["uz"] else rc
  let rc := if "weighting" ∈ rc then rc.erase "weighting" ++ ["w"] else rc
  rc

/-- Claim C6: canonical renaming of the discovered raw particle keys
`['position_x','position_y','momentum_z','weighting','custom_q']` returns
`['custom_q','x','y','uz','w']`: recognized keys are removed in place and
their canonical names appended at the end, so the output ends with
`x, y, uz, w` after the passthrough name `custom_q`. -/
theorem C6_simplify_record :
    simplify_record
        ["position_x", "position_y", "momentum_z", "weighting", "custom_q"] =
      ["custom_q", "x", "y", "uz", "w"] := by
  decide

/-- numpy dtypes relevant to `get_data`: the three floating-point kinds the
scaling test enumerates, plus an integer kind. The numeric value of a cast
is idealized (see the header comment); what matters to the proofs is which
kinds are floating-point. -/
inductive NpType where
  | float64
  | float32
  | float16
  | int64
deriving DecidableEq

/-- The membership test `output_type in [np.float64, np.float32, np.float16]`
of get_data (h5py_reader/utilities.py line 175). -/
def isFloatType (t : NpType) : Bool :=
  match t with
  | .float64 => true
  | .float32 => true
  | .float16 => true
  | .int64 => false

/-- Value of one element after `astype(output_type)`: the identity for the
floating-point kinds (floats are idealized as exact rationals), truncation
toward zero for the integer kind. -/
def castVal (t : NpType) (q : ℚ) : ℚ :=
  match t with
  | .int64 => (pyInt q : ℚ)
  | _ => q

/-- Elementwise `astype(output_type)` on an array. -/
def castArray (t : NpType) (A : Ndarray) : Ndarray :=
  { shape := A.shape, data := A.data.map (castVal t) }

/-- Elementwise in-place scaling `data *= u`. -/
def scaleArray (u : ℚ) (A : Ndarray) : Ndarray :=
  { shape := A.shape, data := A.data.map (fun x => x * u) }

/-- A raw dataset handle as seen by `get_data`: an `h5py.Group` (a constant
record carrying the attributes `value`, `shape` and `unitSI`), an
`h5py.Dataset` (a real array plus its `unitSI` attribute), or any other
h5py object (neither of the two, e.g. an `h5py.Datatype`). -/
inductive Dset where
  | group (value : ℚ) (shape : List ℕ) (unitSI : ℚ)
  | dataset (data : Ndarray) (unitSI : ℚ)
  | other
deriving DecidableEq

/-- The `unitSI` attribute of a handle.  The `other` handle has no
attributes; `get_data` fails on it before ever reading `unitSI`, so the
value returned for it here (1) is never observable. -/
def dsetUnitSI (dset : Dset) : ℚ :=
  match dset with
  | .group _ _ u => u
  | .dataset _ u => u
  | .other => 1

/-- A Python argument that may be a single value, a list, or `None`
(get_data normalizes single values to one-element lists, utilities.py
lines 135-141). -/
inductive PyArg (α : Type) where
  | none
  | scalar (x : α)
  | list (l : List α)

/-- The normalization of get_data's `i_slice` / `pos_slice` arguments:
`None` stays `None`, a single value becomes a one-element list. -/
def PyArg.normalize {α : Type} : PyArg α → Option (List α)
  | .none => Option.none
  | .scalar x => some [x]
  | .list l => some l

/-- Failure modes of `get_data`: `invalidHandleKind` when the handle is
neither a Group nor a Dataset (the Python code then reaches `data.dtype`
with `data` unbound and raises), `badIndex` for the indexing errors numpy
or Python raise in the array branch (missing or too-short `i_slice`,
`max()` of an empty `pos_slice`, too many indices, index out of range). -/
inductive GetDataErr where
  | invalidHandleKind
  | badIndex
deriving DecidableEq

/-- The Python comprehension
`[x for index, x in enumerate(xs) if index not in idxs]`. -/
def removeIdxs {α : Type} (xs : List α) (idxs : List ℕ) : List α :=
  (xs.enum.filter (fun p => !(idxs.contains p.1))).map Prod.snd

/-- Row-major coordinate along axis `a` of the element at flat position
`flat` in an array of shape `sh`. -/
def coordOf (sh : List ℕ) (flat : ℕ) (a : ℕ) : ℕ :=
  (flat / (sh.drop (a + 1)).prod) % sh.getD a 1

/-- numpy wrapping of a possibly negative integer index on an axis of `n`
cells. -/
def wrapIdx (i : ℤ) (n : ℕ) : ℤ :=
  if i < 0 then i + n else i

/-- The final integer index assigned to axis `a` by the loop
`for count, dir_index in enumerate(pos_slice): list_index[dir_index] =
i_slice[count]` — the last write to a given axis wins. -/
def finalAssign (ps : List ℕ) (is : List ℤ) (a : ℕ) : Option ℤ :=
  (((ps.zip is).filter (fun p => p.1 == a)).map Prod.snd).getLast?

/-- Whether every axis of `ps` receives an in-range index (after numpy
negative-index wrapping) for an array of shape `sh`. -/
def validAssign (sh : List ℕ) (ps : List ℕ) (is : List ℤ) : Bool :=
  ps.all (fun a =>
    match finalAssign ps is a with
    | Option.none => false
    | some i =>
      let n : ℤ := (sh.getD a 0 : ℕ)
      decide (0 ≤ wrapIdx i (sh.getD a 0)) && decide (wrapIdx i (sh.getD a 0) < n))

/-- The fancy-indexing expression `dset[tuple_index]` built by get_data
(utilities.py lines 156-169): an integer index (from `i_slice`) at each
axis listed in `pos_slice`, a full slice `:` at every other axis up to
`max(pos_slice)`, then an Ellipsis.  Each integer-indexed axis is removed;
the kept elements are those whose coordinate along every integer-indexed
axis equals the (wrapped) assigned index.  Returns `.error .badIndex`
where numpy raises: empty `pos_slice` (Python `max()` of an empty
sequence), more indices than dimensions, or an out-of-range index. -/
def fancyIndex (A : Ndarray) (ps : List ℕ) (is : List ℤ) :
    Except GetDataErr Ndarray :=
  match ps.max? with
  | Option.none => .error .badIndex
  | some mp =>
    if mp + 1 ≤ A.shape.length then
      if validAssign A.shape ps is then
        .ok { shape := removeIdxs A.shape ps,
              data := (A.data.enum.filter (fun p => ps.all (fun a =>
                  (Int.ofNat (coordOf A.shape p.1 a)) ==
                    wrapIdx ((finalAssign ps is a).getD 0) (A.shape.getD a 0)))).map
                Prod.snd }
      else .error .badIndex
    else .error .badIndex

/-- The extraction part of `get_data` (utilities.py lines 142-169), before
type conversion and unit scaling: for a Group (constant record), an array
of the declared shape — with the axes listed in `pos_slice` removed —
filled with the constant value (`value * np.ones(shape)`); for a Dataset,
the full array when `pos_slice` is `None` and the fancy-indexed selection
otherwise (`i_slice[count]` raises when `i_slice` is missing or shorter
than `pos_slice`); for any other handle the Python code leaves `data`
unbound and raises as soon as it touches `data.dtype`. -/
def rawExtract (dset : Dset) (i_slice : Option (List ℤ))
    (pos_slice : Option (List ℕ)) : Except GetDataErr Ndarray :=
  match dset with
  | .group v sh _ =>
    let sh' := match pos_slice with
      | Option.none => sh
      | some ps => removeIdxs sh ps
    .ok { shape := sh', data := List.replicate sh'.prod v }
  | .dataset A _ =>
    match pos_slice with
    | Option.none => .ok A
    | some ps =>
      match i_slice with
      | Option.none => .error .badIndex
      | some is =>
        if ps.length ≤ is.length then fancyIndex A ps is
        else .error .badIndex
  | .other => .error .invalidHandleKind

/-- `get_data` (h5py_reader/utilities.py lines 111-179): normalize the
slice arguments, extract the (possibly constant, possibly sliced) data,
convert it to `output_type`, and — when `output_type` is a floating-point
kind and the handle's `unitSI` attribute differs from 1 — scale it
elementwise by `unitSI`. -/
def get_data (dset : Dset) (i_sliceArg : PyArg ℤ) (pos_sliceArg : PyArg ℕ)
    (output_type : NpType) : Except GetDataErr Ndarray :=
  match rawExtract dset i_sliceArg.normalize pos_sliceArg.normalize with
  | .error e => .error e
  | .ok data =>
    let data := castArray output_type data
    if isFloatType output_type then
      if dsetUnitSI dset ≠ 1 then .ok (scaleArray (dsetUnitSI dset) data)
      else .ok data
    else .ok data

/-- Claim C4: for every handle that is neither a Constant (Group) nor an
Array (Dataset), `get_data` fails with the invalid-handle-kind error,
whatever the slice arguments and output type. -/
theorem C4_invalid_handle (i : PyArg ℤ) (p : PyArg ℕ) (t : NpType) :
    get_data Dset.other i p t = .error .invalidHandleKind := by
  rfl

/-- For the floating-point output kinds, the idealized cast is the
identity. -/
theorem castArray_float (t : NpType) (hf : isFloatType t = true)
    (A : Ndarray) : castArray t A = A := by
  have hv : ∀ q, castVal t q = q := by
    intro q
    cases t <;> first | rfl | exact absurd hf (by simp [isFloatType])
  have hfun : castVal t = id := funext hv
  cases A with
  | mk sh d => simp [castArray, hfun]

/-- Claim C7: for a floating-point `output_type`, when the handle's
`unitSI` attribute equals 1 exactly, `get_data` returns exactly the
unscaled extracted data (no multiplication is applied); when `unitSI`
equals 2, it returns the extracted data scaled elementwise by 2. -/
theorem C7_unit_scale (dset : Dset) (i : PyArg ℤ) (p : PyArg ℕ)
    (t : NpType) (hf : isFloatType t = true) :
    (dsetUnitSI dset = 1 →
      get_data dset i p t = rawExtract dset i.normalize p.normalize) ∧
    (dsetUnitSI dset = 2 →
      get_data dset i p t =
        (rawExtract dset i.normalize p.normalize).map (scaleArray 2)) := by
  constructor
  · intro hu
    unfold get_data
    cases h : rawExtract dset i.normalize p.normalize with
    | error e => simp [Except.map]
    | ok A => simp [hf, hu, castArray_float t hf, Except.map]
  · intro hu
    unfold get_data
    cases h : rawExtract dset i.normalize p.normalize with
    | error e => simp [Except.map]
    | ok A =>
      have h2 : (2 : ℚ) ≠ 1 := by norm_num
      simp [hf, hu, h2, castArray_float t hf, Except.map]

/-- Witness for C7: a concrete two-element dataset, extracted without
slicing, once with `unitSI = 1` (returned unscaled) and once with
`unitSI = 2` (returned scaled by 2). -/
theorem C7_unit_scale_witness :
    isFloatType NpType.float64 = true ∧
    get_data (Dset.dataset ⟨[2], [3, 4]⟩ 1) PyArg.none PyArg.none
        NpType.float64 =
      rawExtract (Dset.dataset ⟨[2], [3, 4]⟩ 1)
        (PyArg.none : PyArg ℤ).normalize (PyArg.none : PyArg ℕ).normalize ∧
    get_data (Dset.dataset ⟨[2], [3, 4]⟩ 2) PyArg.none PyArg.none
        NpType.float64 =
      (rawExtract (Dset.dataset ⟨[2], [3, 4]⟩ 2)
        (PyArg.none : PyArg ℤ).normalize
        (PyArg.none : PyArg ℕ).normalize).map (scaleArray 2) :=
  ⟨rfl,
   (C7_unit_scale (Dset.dataset ⟨[2], [3, 4]⟩ 1) PyArg.none PyArg.none
      NpType.float64 rfl).1 rfl,
   (C7_unit_scale (Dset.dataset ⟨[2], [3, 4]⟩ 2) PyArg.none PyArg.none
      NpType.float64 rfl).2 rfl⟩

/-- Claim C8: a Constant handle carrying value 5 with declared target shape
`(4,4)` and `unitSI = 1`, extracted with one axis listed in the slice
positions, yields a one-dimensional array of shape `(4,)` every element of
which is 5 (the sliced axis is removed from the declared shape before the
constant is broadcast). -/
theorem C8_constant_broadcast (p : ℕ) (i : PyArg ℤ) (hp : p < 2) :
    get_data (Dset.group 5 [4, 4] 1) i (PyArg.scalar p) NpType.float64 =
      .ok ⟨[4], List.replicate 4 5⟩ := by
  interval_cases p <;> rfl

/-- Witness for C8: slicing away axis 0 of the constant `(4,4)` record. -/
theorem C8_constant_broadcast_witness :
    0 < 2 ∧
    get_data (Dset.group 5 [4, 4] 1) PyArg.none (PyArg.scalar 0)
        NpType.float64 = .ok ⟨[4], List.replicate 4 5⟩ :=
  ⟨by decide, C8_constant_broadcast 0 PyArg.none (by decide)⟩

/-- `np.squeeze`: remove all axes of length 1.  The flat row-major data is
unchanged; only the shape changes.  Never raises. -/
def npSqueeze (A : Ndarray) : Ndarray :=
  { shape := A.shape.filter (fun s => decide (s ≠ 1)), data := A.data }

/-- `np.take(F, [i_cell], axis)` with a one-element index list: the axis is
kept with length 1 and only the elements whose coordinate along `axis`
equals the (negatively-wrapped) index survive.  `none` where numpy raises:
`axis` out of range, or index out of range for the axis. -/
def npTake (F : Ndarray) (axis : ℕ) (i : ℤ) : Option Ndarray :=
  match F.shape[axis]? with
  | Option.none => Option.none
  | some n =>
    let j := wrapIdx i n
    if 0 ≤ j ∧ j < (n : ℤ) then
      some { shape := F.shape.set axis 1,
             data := (F.data.enum.filter (fun p =>
               (Int.ofNat (coordOf F.shape p.1 axis)) == j)).map Prod.snd }
    else Option.none

/-- The grid metainformation sequences handled by `read_field_cartesian`
(field_reader.py lines 70-74 and 93-102).  `grid_unit_si` is the constant 1
in the source and is not one of the five parallel sequences. -/
structure GridMeta where
  axis_labels : List String
  shape : List ℕ
  grid_spacing : List ℚ
  global_offset : List ℚ
  grid_position : List ℚ
deriving DecidableEq

/-- The slice-index computation of `read_field_cartesian` (field_reader.py
lines 86-88): `i_cell = int(0.5 * (slicing + 1.) * n_cells)` (Python `int`
truncates toward zero), then `i_cell = max(i_cell, 0)`, then
`i_cell = min(i_cell, n_cells - 1)`. -/
def iCell (s : ℚ) (n : ℕ) : ℤ :=
  min (max (pyInt ((1 / 2 : ℚ) * (s + 1) * n)) 0) ((n : ℤ) - 1)

/-- The slicing loop of `read_field_cartesian` (field_reader.py lines
79-89): for each slicing direction, resolve the axis label to its index in
the ORIGINAL label list (`axis_labels.index` raises when absent, hence
`none`), read the cell count from the ORIGINAL shape list, and take the
single computed cell index along that axis of the current array.
Accumulates the list of sliced axis indices. -/
def sliceGo (meta : GridMeta) :
    List (String × ℚ) → List ℕ → Ndarray → Option (List ℕ × Ndarray)
  | [], acc, F => some (acc, F)
  | (d, s) :: rest, acc, F =>
    let idx := meta.axis_labels.findIdx (fun x => x == d)
    if idx < meta.axis_labels.length then
      match meta.shape[idx]? with
      | Option.none => Option.none
      | some n =>
        match npTake F idx (iCell s n) with
        | Option.none => Option.none
        | some F1 => sliceGo meta rest (acc ++ [idx]) F1
    else Option.none

/-- The slicing core of `read_field_cartesian` (field_reader.py lines
76-102).  The yt file access of lines 57-74 is replaced by its outputs: the
full field array `F` and the grid metainformation sequences `meta`.  When
`slicing_dir` is `None` nothing happens; otherwise every requested axis is
sliced at its computed cell index (`slicing[count]` raises - hence `none` -
when `slicing` is shorter than `slicing_dir`), the array is squeezed, and
every sliced axis index is removed from the five metadata sequences. -/
def read_field_cartesian (F : Ndarray) (meta : GridMeta) (slicing : List ℚ)
    (slicing_dir : Option (List String)) : Option (Ndarray × GridMeta) :=
  match slicing_dir with
  | Option.none => some (F, meta)
  | some dirs =>
    if dirs.length ≤ slicing.length then
      match sliceGo meta (dirs.zip slicing) [] F with
      | Option.none => Option.none
      | some (idxs, F1) =>
        some (npSqueeze F1,
          { axis_labels := removeIdxs meta.axis_labels idxs,
            shape := removeIdxs meta.shape idxs,
            grid_spacing := removeIdxs meta.grid_spacing idxs,
            global_offset := removeIdxs meta.global_offset idxs,
            grid_position := removeIdxs meta.grid_position idxs })
    else Option.none

/-- The axis indices targeted by a slicing request, resolved against the
original label list (what `list_slicing_index` holds after the loop). -/
def sliceIdxs (meta : GridMeta) (dirs : List String) (slicing : List ℚ) :
    List ℕ :=
  (dirs.zip slicing).map (fun p => meta.axis_labels.findIdx (fun x => x == p.1))

/-- Removing no indices keeps the list unchanged. -/
theorem removeIdxs_nil {α : Type} (xs : List α) : removeIdxs xs [] = xs := by
  simp [removeIdxs]

/-- Claim C2: the slicer's cell index is the integer truncation of
`0.5 * (fractional_position + 1) * n_cells` clamped to `[0, n_cells - 1]`;
for any fractional position in `[-1, 1]` the resulting index lies in
`[0, n_cells - 1]` (so the take never goes out of range), and a fractional
position of 1 selects index `n_cells - 1`. -/
theorem C2_slice_index_clamped (s : ℚ) (n : ℕ) (h1 : 1 ≤ n)
    (h2 : -1 ≤ s) (h3 : s ≤ 1) :
    iCell s n =
      min (max (pyInt ((1 / 2 : ℚ) * (s + 1) * n)) 0) ((n : ℤ) - 1) ∧
    (0 ≤ iCell s n ∧ iCell s n ≤ (n : ℤ) - 1) ∧
    (s = 1 → iCell s n = (n : ℤ) - 1) := by
  have hn1 : (0 : ℤ) ≤ (n : ℤ) - 1 := by
    have : (1 : ℤ) ≤ (n : ℤ) := by exact_mod_cast h1
    linarith
  refine ⟨rfl, ⟨?_, ?_⟩, ?_⟩
  · exact le_min (le_max_right _ _) hn1
  · exact min_le_right _ _
  · intro hs
    subst hs
    have hxn : (1 / 2 : ℚ) * (1 + 1) * n = (n : ℚ) := by ring
    have hx0 : 0 ≤ (1 / 2 : ℚ) * (1 + 1) * n := by positivity
    have hpy : pyInt ((1 / 2 : ℚ) * (1 + 1) * n) = (n : ℤ) := by
      rw [pyInt_nonneg_eq_floor _ hx0, hxn, Int.floor_natCast]
    rw [iCell, hpy]
    rw [max_eq_left (by positivity)]
    exact min_eq_right (by linarith)

/-- Witness for C2: four cells, fractional position 1. -/
theorem C2_slice_index_clamped_witness :
    (1 ≤ 4 ∧ -1 ≤ (1 : ℚ) ∧ (1 : ℚ) ≤ 1) ∧
    (iCell 1 4 =
      min (max (pyInt ((1 / 2 : ℚ) * ((1 : ℚ) + 1) * 4)) 0) ((4 : ℤ) - 1) ∧
    (0 ≤ iCell 1 4 ∧ iCell 1 4 ≤ (4 : ℤ) - 1) ∧
    ((1 : ℚ) = 1 → iCell 1 4 = (4 : ℤ) - 1)) :=
  ⟨by norm_num,
   C2_slice_index_clamped 1 4 (by norm_num) (by norm_num) (by norm_num)⟩

/-- Claim C3, counterexample: with an EMPTY LIST of slice requests (as
opposed to `None`), the code still applies `np.squeeze`, so an input array
with a size-1 axis is not returned identical: here the `(1,2)`-shaped
array comes back with shape `(2,)` while the metadata is unchanged. -/
theorem C3_empty_requests_cex :
    read_field_cartesian ⟨[1, 2], [5, 7]⟩
        ⟨["x", "y"], [1, 2], [1, 1], [0, 0], [0, 0]⟩ [] (some []) ≠
      some (⟨[1, 2], [5, 7]⟩,
        ⟨["x", "y"], [1, 2], [1, 1], [0, 0], [0, 0]⟩) := by
  decide

/-- Claim C3, amended: with no slicing requested as `slicing_dir = None`,
the slicer returns the array and all grid metadata identical to the input,
for every input; with the empty LIST of requests the metadata is returned
identical but the array is squeezed (all its size-1 axes are removed), so
the array is identical only when it has no size-1 axis. -/
theorem C3_empty_requests (F : Ndarray) (meta : GridMeta) (slicing : List ℚ) :
    read_field_cartesian F meta slicing Option.none = some (F, meta) ∧
    read_field_cartesian F meta slicing (some []) =
      some (npSqueeze F, meta) := by
  constructor
  · rfl
  · simp [read_field_cartesian, sliceGo, removeIdxs_nil]

/-- Success of `mapOption` is pointwise success, in order. -/
theorem mapOption_eq_some_forall₂ {α β : Type} (f : α → Option β) :
    ∀ (l : List α) (out : List β),
      mapOption f l = some out ↔ List.Forall₂ (fun a b => f a = some b) l out := by
  intro l
  induction l with
  | nil =>
    intro out
    constructor
    · intro h
      cases h
      exact List.Forall₂.nil
    · intro h
      cases h
      rfl
  | cons a t ih =>
    intro out
    constructor
    · intro h
      rw [mapOption] at h
      cases hfa : f a with
      | none => rw [hfa] at h; cases h
      | some b =>
        rw [hfa] at h
        cases hft : mapOption f t with
        | none => rw [hft] at h; cases h
        | some bs =>
          rw [hft] at h
          cases h
          exact List.Forall₂.cons hfa ((ih bs).mp hft)
    · intro h
      cases h with
      | cons hab htail =>
        have ht := (ih _).mpr htail
        rw [mapOption, hab, ht]

/-- Claim C9: whenever the selector succeeds, the output list has one entry
per input array, in the same position; every input array of length at most
one is returned untouched, and every input array of length greater than
one is replaced by the order-preserving subsequence of its elements
selected by the keep-mask. -/
theorem C9_selection_frame (read : String → List ℚ)
    (dl out : List (List ℚ)) (sel : List (String × Option ℚ × Option ℚ))
    (mask : List Bool)
    (hs : apply_selection read dl sel = some out)
    (hm : computeMask read sel (dl.headD []).length = some mask) :
    out.length = dl.length ∧
    List.Forall₂ (fun l r =>
      (l.length ≤ 1 → r = l) ∧ (1 < l.length → r = maskFilter l mask)) dl out := by
  cases dl with
  | nil => exact absurd hs (by simp [apply_selection])
  | cons d0 rest =>
    have hm' : computeMask read sel d0.length = some mask := hm
    rw [apply_selection, hm'] at hs
    have hall := (mapOption_eq_some_forall₂ _ _ _).mp hs
    refine ⟨(List.Forall₂.length_eq hall).symm, ?_⟩
    refine hall.imp ?_
    intro l r hlr
    by_cases hl : 1 < l.length
    · rw [if_pos hl] at hlr
      rw [boolIndex] at hlr
      constructor
      · intro hc; omega
      · intro _
        split at hlr
        · cases hlr; rfl
        · cases hlr
    · rw [if_neg hl] at hlr
      cases hlr
      exact ⟨fun _ => rfl, fun hc => absurd hc hl⟩

/-- Witness for C9: a two-array data list where the first (length 3) is
compacted by the mask and the second (length 1, a scalar record) is kept. -/
theorem C9_selection_frame_witness :
    apply_selection (fun _ => [0, 1, 2]) [[10, 20, 30], [7]]
        [("a", some 0, Option.none)] = some [[20, 30], [7]] ∧
    computeMask (fun _ => [0, 1, 2]) [("a", some 0, Option.none)]
        (([[10, 20, 30], [7]].headD []).length) =
      some [false, true, true] ∧
    ([[20, 30], [7]] : List (List ℚ)).length =
      ([[10, 20, 30], [7]] : List (List ℚ)).length ∧
    List.Forall₂ (fun l r =>
      (l.length ≤ 1 → r = l) ∧
      (1 < l.length → r = maskFilter l [false, true, true]))
      [[10, 20, 30], [7]] [[20, 30], [7]] :=
  ⟨by decide, by decide,
   (C9_selection_frame (fun _ => [0, 1, 2]) [[10, 20, 30], [7]] [[20, 30], [7]]
      [("a", some 0, Option.none)] [false, true, true]
      (by decide) (by decide)).1,
   (C9_selection_frame (fun _ => [0, 1, 2]) [[10, 20, 30], [7]] [[20, 30], [7]]
      [("a", some 0, Option.none)] [false, true, true]
      (by decide) (by decide)).2⟩

/-- Filtering after mapping has the same length as filtering the composed
predicate. -/
theorem length_filter_comp {α β : Type} (f : α → β) (p : β → Bool) :
    ∀ l : List α, ((l.map f).filter p).length =
      (l.filter (fun a => p (f a))).length := by
  intro l
  induction l with
  | nil => rfl
  | cons a t ih =>
    simp only [List.map_cons, List.filter_cons]
    cases hpa : p (f a) <;> simp [hpa, ih]

/-- The length of `removeIdxs` counts the positions that are not removed. -/
theorem removeIdxs_length {α : Type} (xs : List α) (idxs : List ℕ) :
    (removeIdxs xs idxs).length =
      ((List.range xs.length).filter (fun i => !(idxs.contains i))).length := by
  rw [removeIdxs, List.length_map]
  have h1 : ((List.range xs.length).filter (fun i => !(idxs.contains i))).length
      = ((xs.enum.map Prod.fst).filter (fun i => !(idxs.contains i))).length := by
    rw [List.enum_map_fst]
  rw [h1, length_filter_comp]

/-- The length of a filtered list counts the positions whose entry satisfies
the predicate. -/
theorem length_filter_getD (A : List ℕ) (p : ℕ → Bool) :
    (A.filter p).length =
      ((List.range A.length).filter (fun i => p (A.getD i 0))).length := by
  induction A with
  | nil => rfl
  | cons a t ih =>
    rw [List.length_cons, List.range_succ_eq_map]
    have ht : (((List.range t.length).map Nat.succ).filter
        (fun i => p ((a :: t).getD i 0))).length =
        ((List.range t.length).filter (fun i => p (t.getD i 0))).length := by
      rw [length_filter_comp]
      refine congrArg List.length (List.filter_congr ?_)
      intro x _
      rfl
    simp only [List.filter_cons, List.getD_cons_zero]
    by_cases hpa : p a = true
    · rw [if_pos hpa, if_pos hpa, List.length_cons, List.length_cons]
      omega
    · rw [if_neg hpa, if_neg hpa]
      omega

/-- A filter and its complement partition the length. -/
theorem length_filter_add_compl {α : Type} (l : List α) (p : α → Bool) :
    (l.filter p).length + (l.filter (fun a => !(p a))).length = l.length := by
  induction l with
  | nil => rfl
  | cons a t ih =>
    simp only [List.filter_cons]
    cases hpa : p a <;> simp [hpa] <;> omega

/-- Counting, among the positions below `D`, those that belong to `idxs`
gives the number of distinct elements of `idxs`, provided all its elements
are below `D`. -/
theorem length_filter_contains (idxs : List ℕ) (D : ℕ)
    (h : ∀ i ∈ idxs, i < D) :
    ((List.range D).filter (fun i => idxs.contains i)).length =
      idxs.dedup.length := by
  have hnd : ((List.range D).filter (fun i => idxs.contains i)).Nodup :=
    (List.nodup_range D).filter _
  have hfs : ((List.range D).filter (fun i => idxs.contains i)).toFinset =
      idxs.toFinset := by
    ext x
    simp only [List.mem_toFinset, List.mem_filter, List.mem_range,
      List.elem_iff]
    exact ⟨fun hx => hx.2, fun hx => ⟨h x hx, hx⟩⟩
  calc ((List.range D).filter (fun i => idxs.contains i)).length
      = ((List.range D).filter (fun i => idxs.contains i)).toFinset.card :=
        (List.toFinset_card_of_nodup hnd).symm
    _ = idxs.toFinset.card := by rw [hfs]
    _ = idxs.dedup.length := List.card_toFinset idxs

/-- Setting entries does not change the length, iterated. -/
theorem foldl_set_length : ∀ (idxs : List ℕ) (sh : List ℕ),
    (idxs.foldl (fun s j => s.set j 1) sh).length = sh.length := by
  intro idxs
  induction idxs with
  | nil => intro sh; rfl
  | cons j rest ih =>
    intro sh
    rw [List.foldl_cons, ih, List.length_set]

/-- After setting every index of `idxs` to 1, a position holds 1 exactly
when it is (validly) one of the set indices, and its old entry otherwise. -/
theorem foldl_set_getD : ∀ (idxs : List ℕ) (sh : List ℕ) (i : ℕ),
    i < sh.length →
    (idxs.foldl (fun s j => s.set j 1) sh).getD i 0 =
      if i ∈ idxs then 1 else sh.getD i 0 := by
  intro idxs
  induction idxs with
  | nil =>
    intro sh i hi
    simp
  | cons j rest ih =>
    intro sh i hi
    rw [List.foldl_cons,
      ih (sh.set j 1) i (by rw [List.length_set]; exact hi)]
    by_cases hij : i = j
    · subst hij
      by_cases hir : i ∈ rest
      · simp [hir]
      · simp only [hir, if_false, List.mem_cons, true_or, if_true]
        rw [List.getD_eq_getElem?_getD, List.getElem?_set_self (by omega),
          Option.getD_some]
    · by_cases hir : i ∈ rest
      · simp [hir, List.mem_cons]
      · have : ¬ i ∈ j :: rest := by
          simp [List.mem_cons, hij, hir]
        simp only [hir, if_false, this]
        rw [List.getD_eq_getElem?_getD, List.getD_eq_getElem?_getD,
          List.getElem?_set_ne (fun h => hij h.symm)]

/-- A successful `npTake` sets the taken axis of the shape to length 1. -/
theorem npTake_some_shape (F : Ndarray) (axis : ℕ) (i : ℤ) (G : Ndarray)
    (h : npTake F axis i = some G) : G.shape = F.shape.set axis 1 := by
  rw [npTake] at h
  cases hsn : F.shape[axis]? with
  | none => rw [hsn] at h; cases h
  | some n =>
    rw [hsn] at h
    dsimp only at h
    by_cases hc : 0 ≤ wrapIdx i n ∧ wrapIdx i n < (n : ℤ)
    · rw [if_pos hc] at h
      cases h
      rfl
    · rw [if_neg hc] at h
      cases h

/-- Characterization of a successful slicing loop: the accumulated indices
are the requested axis indices (resolved against the original labels, in
request order), the array shape has every requested axis set to length 1,
and every requested index is within both the label list and the shape
list. -/
theorem sliceGo_some (meta : GridMeta) :
    ∀ (pairs : List (String × ℚ)) (acc : List ℕ) (F : Ndarray)
      (res : List ℕ) (F1 : Ndarray),
      sliceGo meta pairs acc F = some (res, F1) →
      res = acc ++
        pairs.map (fun p => meta.axis_labels.findIdx (fun x => x == p.1)) ∧
      F1.shape =
        (pairs.map (fun p =>
          meta.axis_labels.findIdx (fun x => x == p.1))).foldl
          (fun s j => s.set j 1) F.shape ∧
      ∀ j ∈ pairs.map (fun p => meta.axis_labels.findIdx (fun x => x == p.1)),
        j < meta.axis_labels.length ∧ j < meta.shape.length := by
  intro pairs
  induction pairs with
  | nil =>
    intro acc F res F1 h
    rw [sliceGo] at h
    cases h
    refine ⟨by simp, by simp, by simp⟩
  | cons hd rest ih =>
    intro acc F res F1 h
    obtain ⟨d, s⟩ := hd
    rw [sliceGo] at h
    by_cases hlt :
        meta.axis_labels.findIdx (fun x => x == d) < meta.axis_labels.length
    · rw [if_pos hlt] at h
      cases hsn : meta.shape[(meta.axis_labels.findIdx (fun x => x == d))]? with
      | none => rw [hsn] at h; cases h
      | some n =>
        rw [hsn] at h
        dsimp only at h
        cases hnt : npTake F (meta.axis_labels.findIdx (fun x => x == d))
            (iCell s n) with
        | none => rw [hnt] at h; cases h
        | some F2 =>
          rw [hnt] at h
          dsimp only at h
          obtain ⟨hres, hshape, hbounds⟩ := ih _ F2 res F1 h
          have hlen :
              meta.axis_labels.findIdx (fun x => x == d) <
                meta.shape.length := by
            by_contra hge
            rw [List.getElem?_eq_none (by omega)] at hsn
            cases hsn
          refine ⟨?_, ?_, ?_⟩
          · rw [hres, List.map_cons, List.append_assoc, List.singleton_append]
          · rw [List.map_cons, List.foldl_cons, hshape,
              npTake_some_shape _ _ _ _ hnt]
          · intro j hj
            rw [List.map_cons, List.mem_cons] at hj
            cases hj with
            | inl hj => subst hj; exact ⟨hlt, hlen⟩
            | inr hj => exact hbounds j hj
    · rw [if_neg hlt] at h
      cases h

/-- The axis indices sliced away by a request, `[]` when `slicing_dir` is
`None`. -/
def sliceIdxsO (meta : GridMeta) (sdir : Option (List String))
    (slicing : List ℚ) : List ℕ :=
  match sdir with
  | Option.none => []
  | some dirs => sliceIdxs meta dirs slicing

/-- Inversion of a successful `read_field_cartesian` call with an actual
(non-`None`) list of slicing directions. -/
theorem read_field_cartesian_some_dirs (F : Ndarray) (meta : GridMeta)
    (slicing : List ℚ) (dirs : List String) (F' : Ndarray) (meta' : GridMeta)
    (hs : read_field_cartesian F meta slicing (some dirs) = some (F', meta')) :
    F'.shape = ((sliceIdxs meta dirs slicing).foldl (fun s j => s.set j 1)
        F.shape).filter (fun s => decide (s ≠ 1)) ∧
    meta'.axis_labels =
      removeIdxs meta.axis_labels (sliceIdxs meta dirs slicing) ∧
    meta'.shape = removeIdxs meta.shape (sliceIdxs meta dirs slicing) ∧
    meta'.grid_spacing =
      removeIdxs meta.grid_spacing (sliceIdxs meta dirs slicing) ∧
    meta'.global_offset =
      removeIdxs meta.global_offset (sliceIdxs meta dirs slicing) ∧
    meta'.grid_position =
      removeIdxs meta.grid_position (sliceIdxs meta dirs slicing) ∧
    ∀ j ∈ sliceIdxs meta dirs slicing,
      j < meta.axis_labels.length ∧ j < meta.shape.length := by
  rw [read_field_cartesian] at hs
  by_cases hlen : dirs.length ≤ slicing.length
  · rw [if_pos hlen] at hs
    cases hgo : sliceGo meta (dirs.zip slicing) [] F with
    | none => rw [hgo] at hs; cases hs
    | some pr =>
      obtain ⟨idxs, F1⟩ := pr
      rw [hgo] at hs
      dsimp only at hs
      cases hs
      obtain ⟨hres, hshape, hbounds⟩ := sliceGo_some meta _ _ _ _ _ hgo
      rw [List.nil_append] at hres
      have hres' : idxs = sliceIdxs meta dirs slicing := hres
      subst hres'
      refine ⟨?_, rfl, rfl, rfl, rfl, rfl, ?_⟩
      · rw [npSqueeze, hshape]
        dsimp only
        rw [hres]
      · intro j hj
        exact hbounds j hj
  · rw [if_neg hlen] at hs
    cases hs

/-- `removeIdxs` shortens a length-`D` list by the number of distinct
removed indices, when they are all below `D`. -/
theorem removeIdxs_length_eq {α : Type} (L : List α) (idxs : List ℕ) (D : ℕ)
    (hL : L.length = D) (hb : ∀ i ∈ idxs, i < D) :
    (removeIdxs L idxs).length = D - idxs.dedup.length := by
  rw [removeIdxs_length, hL]
  have hpart : ((List.range D).filter (fun i => idxs.contains i)).length +
      ((List.range D).filter (fun i => !(idxs.contains i))).length = D := by
    simpa using length_filter_add_compl (List.range D) (fun i => idxs.contains i)
  have hc := length_filter_contains idxs D hb
  omega

/-- Claim C5: after every successful field-slicing call, the five grid
metadata sequences all have the same length, namely the original
dimensionality minus the number of distinct sliced axes. -/
theorem C5_parallel_sequences (F : Ndarray) (meta : GridMeta)
    (slicing : List ℚ) (sdir : Option (List String)) (F' : Ndarray)
    (meta' : GridMeta) (D : ℕ)
    (hs : read_field_cartesian F meta slicing sdir = some (F', meta'))
    (h1 : meta.axis_labels.length = D) (h2 : meta.shape.length = D)
    (h3 : meta.grid_spacing.length = D) (h4 : meta.global_offset.length = D)
    (h5 : meta.grid_position.length = D) :
    meta'.axis_labels.length = D - (sliceIdxsO meta sdir slicing).dedup.length ∧
    meta'.shape.length = D - (sliceIdxsO meta sdir slicing).dedup.length ∧
    meta'.grid_spacing.length =
      D - (sliceIdxsO meta sdir slicing).dedup.length ∧
    meta'.global_offset.length =
      D - (sliceIdxsO meta sdir slicing).dedup.length ∧
    meta'.grid_position.length =
      D - (sliceIdxsO meta sdir slicing).dedup.length := by
  cases sdir with
  | none =>
    rw [read_field_cartesian] at hs
    cases hs
    simp [sliceIdxsO, h1, h2, h3, h4, h5]
  | some dirs =>
    obtain ⟨hFsh, hl, hsh, hsp, hoff, hpos, hb⟩ :=
      read_field_cartesian_some_dirs F meta slicing dirs F' meta' hs
    have hbD : ∀ i ∈ sliceIdxs meta dirs slicing, i < D := by
      intro i hi
      rw [← h1]
      exact (hb i hi).1
    have hO : sliceIdxsO meta (some dirs) slicing =
        sliceIdxs meta dirs slicing := rfl
    rw [hO, hl, hsh, hsp, hoff, hpos]
    exact ⟨removeIdxs_length_eq _ _ D h1 hbD,
      removeIdxs_length_eq _ _ D h2 hbD,
      removeIdxs_length_eq _ _ D h3 hbD,
      removeIdxs_length_eq _ _ D h4 hbD,
      removeIdxs_length_eq _ _ D h5 hbD⟩

/-- Witness for C5: a (2,3) grid sliced along the second axis at fractional
position 1; the five metadata sequences all come back with length 1 = 2 - 1. -/
theorem C5_parallel_sequences_witness :
    read_field_cartesian ⟨[2, 3], [0, 1, 2, 3, 4, 5]⟩
        ⟨["x", "y"], [2, 3], [1, 1], [0, 0], [0, 0]⟩ [1] (some ["y"]) =
      some (⟨[2], [2, 5]⟩, ⟨["x"], [2], [1], [0], [0]⟩) ∧
    ((⟨["x"], [2], [1], [0], [0]⟩ : GridMeta).axis_labels.length =
      2 - (sliceIdxsO ⟨["x", "y"], [2, 3], [1, 1], [0, 0], [0, 0]⟩
        (some ["y"]) [1]).dedup.length ∧
    (⟨["x"], [2], [1], [0], [0]⟩ : GridMeta).shape.length =
      2 - (sliceIdxsO ⟨["x", "y"], [2, 3], [1, 1], [0, 0], [0, 0]⟩
        (some ["y"]) [1]).dedup.length ∧
    (⟨["x"], [2], [1], [0], [0]⟩ : GridMeta).grid_spacing.length =
      2 - (sliceIdxsO ⟨["x", "y"], [2, 3], [1, 1], [0, 0], [0, 0]⟩
        (some ["y"]) [1]).dedup.length ∧
    (⟨["x"], [2], [1], [0], [0]⟩ : GridMeta).global_offset.length =
      2 - (sliceIdxsO ⟨["x", "y"], [2, 3], [1, 1], [0, 0], [0, 0]⟩
        (some ["y"]) [1]).dedup.length ∧
    (⟨["x"], [2], [1], [0], [0]⟩ : GridMeta).grid_position.length =
      2 - (sliceIdxsO ⟨["x", "y"], [2, 3], [1, 1], [0, 0], [0, 0]⟩
        (some ["y"]) [1]).dedup.length) := by
  have h_i : iCell 1 3 = 2 := by norm_num [iCell, pyInt_nonneg_eq_floor]
  have h_take : npTake ⟨[2, 3], [0, 1, 2, 3, 4, 5]⟩ 1 2 =
      some ⟨[2, 1], [2, 5]⟩ := by decide
  have h_go : sliceGo ⟨["x", "y"], [2, 3], [1, 1], [0, 0], [0, 0]⟩
      [("y", (1 : ℚ))] [] ⟨[2, 3], [0, 1, 2, 3, 4, 5]⟩ =
      some ([1], ⟨[2, 1], [2, 5]⟩) := by
    rw [sliceGo]
    rw [show List.findIdx (fun x => x == "y") ["x", "y"] = 1 from rfl]
    rw [if_pos (by decide)]
    rw [show (([2, 3] : List ℕ))[1]? = some 3 from rfl]
    dsimp only
    rw [h_i, h_take]
    rfl
  have hs : read_field_cartesian ⟨[2, 3], [0, 1, 2, 3, 4, 5]⟩
      ⟨["x", "y"], [2, 3], [1, 1], [0, 0], [0, 0]⟩ [1] (some ["y"]) =
      some (⟨[2], [2, 5]⟩, ⟨["x"], [2], [1], [0], [0]⟩) := by
    rw [read_field_cartesian, if_pos (by decide),
      show (["y"].zip ([1] : List ℚ)) = [("y", (1 : ℚ))] from rfl, h_go]
    decide
  exact ⟨hs, C5_parallel_sequences _ _ _ _ _ _ 2 hs rfl rfl rfl rfl rfl⟩

/-- Claim C10: whenever the field slicer is called with an actual list of
slicing directions, the returned array has no axis of length 1 (every
size-1 axis is squeezed away); and when some axis of the original grid had
size 1 and was not among the sliced axes, the dimensionality of the
returned array is strictly smaller than the length of the returned
metadata shape (which keeps that unrequested size-1 axis). -/
theorem C10_squeeze_all (F : Ndarray) (meta : GridMeta) (slicing : List ℚ)
    (dirs : List String) (F' : Ndarray) (meta' : GridMeta)
    (hs : read_field_cartesian F meta slicing (some dirs) = some (F', meta'))
    (hcons : F.shape = meta.shape) :
    (∀ s ∈ F'.shape, s ≠ 1) ∧
    ((∃ i, i < meta.shape.length ∧ meta.shape.getD i 0 = 1 ∧
        i ∉ sliceIdxs meta dirs slicing) →
      F'.shape.length < meta'.shape.length) := by
  obtain ⟨hFsh, hl, hsh, hsp, hoff, hpos, hb⟩ :=
    read_field_cartesian_some_dirs F meta slicing dirs F' meta' hs
  constructor
  · intro s hsmem
    rw [hFsh] at hsmem
    exact of_decide_eq_true (List.mem_filter.mp hsmem).2
  · rintro ⟨i0, hi0D, hi0v, hi0n⟩
    have hAlen : ((sliceIdxs meta dirs slicing).foldl (fun s j => s.set j 1)
        F.shape).length = meta.shape.length := by
      rw [foldl_set_length, hcons]
    have hL1 : F'.shape.length =
        ((List.range meta.shape.length).filter (fun i =>
          decide ((((sliceIdxs meta dirs slicing).foldl (fun s j => s.set j 1)
            F.shape).getD i 0) ≠ 1))).length := by
      rw [hFsh, length_filter_getD, hAlen]
    have hL2 : meta'.shape.length =
        ((List.range meta.shape.length).filter (fun i =>
          !((sliceIdxs meta dirs slicing).contains i))).length := by
      rw [hsh, removeIdxs_length]
    rw [hL1, hL2]
    have himp : ∀ i,
        decide ((((sliceIdxs meta dirs slicing).foldl (fun s j => s.set j 1)
          F.shape).getD i 0) ≠ 1) = true →
        (!((sliceIdxs meta dirs slicing).contains i)) = true := by
      intro i hp
      by_contra hq
      have hct : (sliceIdxs meta dirs slicing).contains i = true := by
        revert hq
        cases (sliceIdxs meta dirs slicing).contains i <;> simp
      have hmem : i ∈ sliceIdxs meta dirs slicing := List.elem_iff.mp hct
      have hiD : i < F.shape.length := by
        rw [hcons]
        exact (hb i hmem).2
      have hval : ((sliceIdxs meta dirs slicing).foldl (fun s j => s.set j 1)
          F.shape).getD i 0 = 1 := by
        rw [foldl_set_getD _ _ _ hiD, if_pos hmem]
      rw [hval] at hp
      simp at hp
    have hsub := List.monotone_filter_right (List.range meta.shape.length) himp
    refine lt_of_le_of_ne hsub.length_le ?_
    intro heq
    have heql := hsub.eq_of_length heq
    have hq0 : i0 ∈ (List.range meta.shape.length).filter (fun i =>
        !((sliceIdxs meta dirs slicing).contains i)) := by
      rw [List.mem_filter]
      refine ⟨List.mem_range.mpr hi0D, ?_⟩
      have hcf : (sliceIdxs meta dirs slicing).contains i0 = false := by
        cases hcc : (sliceIdxs meta dirs slicing).contains i0
        · rfl
        · exact absurd (List.elem_iff.mp hcc) hi0n
      rw [hcf]
      rfl
    have hp0 : i0 ∉ (List.range meta.shape.length).filter (fun i =>
        decide ((((sliceIdxs meta dirs slicing).foldl (fun s j => s.set j 1)
          F.shape).getD i 0) ≠ 1)) := by
      intro hmem1
      have hdec := (List.mem_filter.mp hmem1).2
      have hval : ((sliceIdxs meta dirs slicing).foldl (fun s j => s.set j 1)
          F.shape).getD i0 0 = 1 := by
        rw [foldl_set_getD _ _ _ (by rw [hcons]; exact hi0D), if_neg hi0n,
          hcons]
        exact hi0v
      rw [hval] at hdec
      simp at hdec
    rw [← heql] at hq0
    exact hp0 hq0

/-- Witness for C10: a (1,3) grid — whose first axis has size 1 and is not
requested — sliced along the second axis: the returned array is
zero-dimensional while the returned metadata shape keeps the size-1 axis. -/
theorem C10_squeeze_all_witness :
    read_field_cartesian ⟨[1, 3], [0, 1, 2]⟩
        ⟨["x", "y"], [1, 3], [1, 1], [0, 0], [0, 0]⟩ [1] (some ["y"]) =
      some (⟨[], [2]⟩, ⟨["x"], [1], [1], [0], [0]⟩) ∧
    ((∀ s ∈ (⟨[], [2]⟩ : Ndarray).shape, s ≠ 1) ∧
    ((∃ i, i < 2 ∧ ([1, 3] : List ℕ).getD i 0 = 1 ∧
        i ∉ sliceIdxs ⟨["x", "y"], [1, 3], [1, 1], [0, 0], [0, 0]⟩
          ["y"] [1]) →
      (⟨[], [2]⟩ : Ndarray).shape.length <
        (⟨["x"], [1], [1], [0], [0]⟩ : GridMeta).shape.length)) := by
  have h_i : iCell 1 3 = 2 := by norm_num [iCell, pyInt_nonneg_eq_floor]
  have h_take : npTake ⟨[1, 3], [0, 1, 2]⟩ 1 2 = some ⟨[1, 1], [2]⟩ := by
    decide
  have h_go : sliceGo ⟨["x", "y"], [1, 3], [1, 1], [0, 0], [0, 0]⟩
      [("y", (1 : ℚ))] [] ⟨[1, 3], [0, 1, 2]⟩ =
      some ([1], ⟨[1, 1], [2]⟩) := by
    rw [sliceGo]
    rw [show List.findIdx (fun x => x == "y") ["x", "y"] = 1 from rfl]
    rw [if_pos (by decide)]
    rw [show (([1, 3] : List ℕ))[1]? = some 3 from rfl]
    dsimp only
    rw [h_i, h_take]
    rfl
  have hs : read_field_cartesian ⟨[1, 3], [0, 1, 2]⟩
      ⟨["x", "y"], [1, 3], [1, 1], [0, 0], [0, 0]⟩ [1] (some ["y"]) =
      some (⟨[], [2]⟩, ⟨["x"], [1], [1], [0], [0]⟩) := by
    rw [read_field_cartesian, if_pos (by decide),
      show (["y"].zip ([1] : List ℚ)) = [("y", (1 : ℚ))] from rfl, h_go]
    decide
  exact ⟨hs, C10_squeeze_all _ _ _ _ _ _ hs rfl⟩
